/-
Verification of the nonebot-plugin-vrpspdouchong rendering pipeline.

Shallow embedding of the pure computational core of the repository:
  - src/toolkit.py            : emoji run splitting for text drawing
  - src/commands/douchong.py  : month normalisation, duration / fan / count
                                formatters, table total recomputation
  - src/commands/query.py     : row pagination by pixel height, super-chat
                                stripe parity, liushui card totals
  - src/commands/live_list.py : pixel-budget text truncation

Python strings are modelled as `List Char`; Python ints as `Int` / `Nat`;
Python floats as exact rationals (`ℚ`) or scaled integers where a decimal
label is produced.  Upstream JSON field values that are read with
`dict.get` + coercion (`float(...)`, `or 0`) are modelled as `Option`
values, `none` standing for an absent or unparsable field.
-/
import Mathlib

namespace VRPSP

/-! ### Python string primitives

`pyStrip` models `str.strip()` (whitespace trimming on both ends),
`pySplit` models `str.split(sep)` for a one-character separator, and
`pyParseInt` models `int(str)` (optional surrounding whitespace, optional
sign, a nonempty digit string; PEP-515 underscore grouping is not
modelled).  `natDigits`/`pyIntStr` model `str(int)` decimal rendering. -/

def pyStrip (cs : List Char) : List Char :=
  ((cs.dropWhile Char.isWhitespace).reverse.dropWhile Char.isWhitespace).reverse

def pySplitAux (sep : Char) : List Char → List Char → List (List Char)
  | [], acc => [acc.reverse]
  | c :: rest, acc =>
    if c = sep then acc.reverse :: pySplitAux sep rest []
    else pySplitAux sep rest (c :: acc)

def pySplit (sep : Char) (cs : List Char) : List (List Char) :=
  pySplitAux sep cs []

def digitsVal (ds : List Char) : Nat :=
  ds.foldl (fun a c => a * 10 + (c.toNat - 48)) 0

def parseDigits (ds : List Char) : Option Nat :=
  if ds ≠ [] ∧ ds.all Char.isDigit then some (digitsVal ds) else none

def pyParseInt (cs : List Char) : Option Int :=
  match pyStrip cs with
  | '-' :: ds => (parseDigits ds).map (fun n => -(n : Int))
  | '+' :: ds => (parseDigits ds).map (fun n => (n : Int))
  | ds => (parseDigits ds).map (fun n => (n : Int))

def digitChar (d : Nat) : Char := Char.ofNat (48 + d)

def natDigitsAux : Nat → Nat → List Char
  | 0, _ => []
  | fuel + 1, n =>
    if n < 10 then [digitChar n]
    else natDigitsAux fuel (n / 10) ++ [digitChar (n % 10)]

def natDigits (n : Nat) : List Char := natDigitsAux (n + 1) n

def pyIntStr (n : Int) : List Char :=
  if n < 0 then '-' :: natDigits n.natAbs else natDigits n.natAbs

/-! ### toolkit.py — colors and emoji run splitting -/

/-- The `Color` enum of toolkit.py. -/
inductive Color
  | BLACK
  | WHITE
  | GRAY
  | LIGHTGRAY
  | DEEPSKYBLUE
deriving DecidableEq

/-- RGB values carried by the `Color` enum. -/
def Color.value : Color → Nat × Nat × Nat
  | .BLACK => (0, 0, 0)
  | .WHITE => (255, 255, 255)
  | .GRAY => (169, 169, 169)
  | .LIGHTGRAY => (244, 244, 244)
  | .DEEPSKYBLUE => (0, 191, 255)

/-- `toolkit._is_emoji_char`.  The final fallback consults
`unicodedata.category(ch) == "So"`, an external Unicode table; it is kept
abstract as the `catSo` oracle, so every theorem below holds for any
instantiation of that table. -/
def _is_emoji_char (catSo : Char → Bool) (ch : Char) : Bool :=
  if ch.toNat = 0xFE0F ∨ ch.toNat = 0x200D then true
  else if 0x1F300 ≤ ch.toNat ∧ ch.toNat ≤ 0x1FAFF then true
  else if 0x2600 ≤ ch.toNat ∧ ch.toNat ≤ 0x27BF then true
  else if 0x1F1E6 ≤ ch.toNat ∧ ch.toNat ≤ 0x1F1FF then true
  else catSo ch

/-- Loop body of `toolkit._split_runs_by_emoji`: the state is the pending
run buffer `buf` and its class flag `bIsE`; runs are emitted on a class
change and the pending buffer is flushed at the end. -/
def splitRunsAux (catSo : Char → Bool) :
    List Char → List Char → Bool → List (List Char × Bool)
  | [], buf, bIsE => if buf.isEmpty then [] else [(buf, bIsE)]
  | ch :: rest, buf, bIsE =>
    if ch.toNat = 0xFE0F ∨ ch.toNat = 0x200D then
      if buf.isEmpty then splitRunsAux catSo rest [ch] true
      else splitRunsAux catSo rest (buf ++ [ch]) bIsE
    else
      if buf.isEmpty then splitRunsAux catSo rest [ch] (_is_emoji_char catSo ch)
      else if _is_emoji_char catSo ch = bIsE then
        splitRunsAux catSo rest (buf ++ [ch]) bIsE
      else
        (buf, bIsE) :: splitRunsAux catSo rest [ch] (_is_emoji_char catSo ch)

/-- `toolkit._split_runs_by_emoji`: split a string into
`(run_text, run_is_emoji)` runs. -/
def _split_runs_by_emoji (catSo : Char → Bool) (s : List Char) :
    List (List Char × Bool) :=
  splitRunsAux catSo s [] false

/-! ### commands/douchong.py — month normalisation and field formatters -/

/-- Month field check shared by both regex alternatives of
`normalize_month_arg`: `int(mm)` must lie in `1..12`; on success the
result is `f"{yyyy}{mm}"`. -/
def monthResult (yyyy mm : List Char) : Option String :=
  if 1 ≤ digitsVal mm ∧ digitsVal mm ≤ 12 then some (String.mk (yyyy ++ mm))
  else none

/-- `normalize_month_arg` (identical in douchong.py and query.py): accept
`YYYYMM` or `YYYY-MM` after stripping, validate the month field, return
the `YYYYMM` code or `None`.  The regex full-matches
`(\d{4})(\d{2})` / `(\d{4})-(\d{2})` are rendered as shape matches on the
stripped character list (`\d` is modelled as the ASCII digit class). -/
def normalize_month_arg (raw : String) : Option String :=
  if raw.data = [] then none
  else
    match pyStrip raw.data with
    | [y1, y2, y3, y4, m1, m2] =>
      if ([y1, y2, y3, y4, m1, m2].all Char.isDigit) then
        monthResult [y1, y2, y3, y4] [m1, m2]
      else none
    | [y1, y2, y3, y4, h, m1, m2] =>
      if ([y1, y2, y3, y4].all Char.isDigit) && h == '-' &&
          ([m1, m2].all Char.isDigit) then
        monthResult [y1, y2, y3, y4] [m1, m2]
      else none
    | _ => none

/-- The month-argument validity predicate in the words of the spec: the
stripped input is six digits, or four digits, a hyphen and two digits,
and the two-digit month field lies between 01 and 12. -/
def matchesMonthPattern (raw : String) : Bool :=
  match pyStrip raw.data with
  | [y1, y2, y3, y4, m1, m2] =>
    [y1, y2, y3, y4, m1, m2].all Char.isDigit &&
      (1 ≤ digitsVal [m1, m2] && digitsVal [m1, m2] ≤ 12)
  | [y1, y2, y3, y4, h, m1, m2] =>
    [y1, y2, y3, y4].all Char.isDigit && h == '-' &&
      [m1, m2].all Char.isDigit &&
      (1 ≤ digitsVal [m1, m2] && digitsVal [m1, m2] ≤ 12)
  | _ => false

/-- `"HH:MM:SS"` parsing shared by `format_duration` (douchong.py) and
`_format_duration_hours` (query.py): split on `':'`, require exactly
three parts, convert each with `int(...)`. -/
def parseHMS (hms : String) : Option (Int × Int × Int) :=
  match pySplit ':' hms.data with
  | [p1, p2, p3] =>
    match pyParseInt p1, pyParseInt p2, pyParseInt p3 with
    | some h, some m, some s => some (h, m, s)
    | _, _, _ => none
  | _ => none

/-- Round-half-even integer division: the rounding mode of Python's
`format(x, ".1f")`, applied to the exact rational `num / den`
(`den > 0`).  Models the decimal formatting of a float whose value the
float arithmetic represents exactly. -/
def divRoundHalfEven (num den : Int) : Int :=
  let q := num / den
  let r := num % den
  if 2 * r < den then q
  else if den < 2 * r then q + 1
  else if q % 2 = 0 then q else q + 1

/-- Decimal label with one fractional digit from a value given in tenths
(`f"{x:.1f}"` applied to `x = n / 10`). -/
def tenthsRepr (n : Int) : List Char :=
  let a := n.natAbs
  let core := natDigits (a / 10) ++ ['.', digitChar (a % 10)]
  if n < 0 then '-' :: core else core

/-- Decimal label with two fractional digits from a value given in
hundredths (`f"{x:.2f}"` applied to `x = n / 100`). -/
def hundredthsRepr (n : Int) : List Char :=
  let a := n.natAbs
  let core := natDigits (a / 100) ++ ['.', digitChar (a / 10 % 10), digitChar (a % 10)]
  if n < 0 then '-' :: core else core

def hoursSuffix : List Char := ['小', '时']

/-- `douchong.format_duration`: `'HH:MM:SS'` → one-decimal
`f"{h + m/60 + s/3600:.1f}小时"`; anything that fails to parse is
returned unchanged.  The exact value in tenths of hours is
`(3600h + 60m + s) / 360`. -/
def format_duration (hms : String) : String :=
  match parseHMS hms with
  | some (h, m, s) =>
    String.mk (tenthsRepr (divRoundHalfEven (3600 * h + 60 * m + s) 360) ++ hoursSuffix)
  | none => hms

/-- `query._format_duration_hours`: `'HH:MM:SS'` → two-decimal
`f"{total_hours:.2f}小时"`; on failure `live_duration or "00:00:00"`,
i.e. the original string unless it is empty (falsy), in which case the
literal `"00:00:00"`.  The exact value in hundredths of hours is
`(3600h + 60m + s) / 36`. -/
def _format_duration_hours (live_duration : String) : String :=
  match parseHMS live_duration with
  | some (h, m, s) =>
    String.mk (hundredthsRepr (divRoundHalfEven (3600 * h + 60 * m + s) 36) ++ hoursSuffix)
  | none => if live_duration = "" then "00:00:00" else live_duration

/-- `douchong.format_count`: an absent (`None`) guard/fans count renders
as the placeholder dash, a present integer as its decimal string. -/
def format_count : Option Int → String
  | none => "-"
  | some v => String.mk (pyIntStr v)

/-! ### commands/douchong.py and query.py — total recomputation

`render_table_image` reads the three revenue components of each record
with `_to_float(d.get(field, 0))` and overwrites `d["total"]` with their
sum before sorting and drawing; the drawn total cell then reads
`d.get("total")` back.  `render_liushui_card` computes
`total = gift + guard + sc` from its arguments, each read as
`float(value or 0)`.  A field is `Option ℚ`, `none` meaning absent or
unparsable (both coerce to `0.0` in the source). -/

structure StatRecord where
  gift : Option ℚ
  super_chat : Option ℚ
  guard : Option ℚ
  total : Option ℚ

/-- `douchong._to_float` applied to a `d.get(field, 0)` read. -/
def _to_float (v : Option ℚ) : ℚ := v.getD 0

/-- The preprocessing loop body of `render_table_image`:
`d["total"] = gift + sc + guard`. -/
def set_total_from_components (d : StatRecord) : StatRecord :=
  { d with total := some (_to_float d.gift + _to_float d.super_chat + _to_float d.guard) }

/-- The preprocessing pass of `render_table_image` over the record list
(run before the sort and the drawing loop). -/
def prepare_records (l : List StatRecord) : List StatRecord :=
  l.map set_total_from_components

/-- The value drawn in the total column:
`_to_float(d.get('total', 0))` after preprocessing. -/
def table_total_cell (d : StatRecord) : ℚ :=
  _to_float (set_total_from_components d).total

/-- A record with its upstream `total` entry forgotten. -/
def eraseTotal (d : StatRecord) : StatRecord := { d with total := none }

/-- `float(value or 0)` as used by `render_liushui_card` on its component
arguments (`none` = falsy upstream value). -/
def pyOrZero (v : Option ℚ) : ℚ := v.getD 0

/-- `render_liushui_card`: `total = gift + guard + sc`. -/
def render_liushui_total (gift_value guard_value sc_value : Option ℚ) : ℚ :=
  pyOrZero gift_value + pyOrZero guard_value + pyOrZero sc_value

/-! ### commands/query.py — pagination by row height

`_paginate_rows_by_height` reads each row only through
`int(r.get("row_height") or 0)`; rows are therefore kept abstract
(`α`) together with that extracted height (`height : α → Int`). -/

/-- The per-page data budget: canvas height minus header, table header
and padding, clamped below to 1 px. -/
def page_data_budget (max_canvas_h header_h table_header_h table_padding_h : Int) : Int :=
  if max_canvas_h - header_h - table_header_h - table_padding_h ≤ 0 then 1
  else max_canvas_h - header_h - table_header_h - table_padding_h

/-- The accumulation loop of `_paginate_rows_by_height`: state is the
emitted pages, the current page `cur` with its running height `cur_h`,
its start index `start_idx`, and the global row counter `global_idx`.
A row that would overflow a nonempty current page first flushes it. -/
def paginateAux {α : Type} (height : α → Int) (maxDataH : Int) :
    List α → List (Nat × List α) → List α → Int → Nat → Nat → List (Nat × List α)
  | [], pages, cur, _, start_idx, _ =>
    if cur.isEmpty then pages else pages ++ [(start_idx, cur)]
  | r :: rest, pages, cur, cur_h, start_idx, global_idx =>
    if cur.isEmpty = false ∧ maxDataH < cur_h + height r then
      paginateAux height maxDataH rest (pages ++ [(start_idx, cur)]) [r] (height r)
        global_idx (global_idx + 1)
    else
      paginateAux height maxDataH rest pages (cur ++ [r]) (cur_h + height r)
        start_idx (global_idx + 1)

/-- Python's `pages or [(0, [])]`: an empty list is falsy and falls back
to the default single empty page. -/
def pagesOrDefault {α : Type} (pages : List (Nat × List α)) : List (Nat × List α) :=
  if pages.isEmpty then [(0, [])] else pages

/-- `query._paginate_rows_by_height`: split `rows` into
`(start_index, rows)` pages; an empty result falls back to the single
empty page `(0, [])`. -/
def _paginate_rows_by_height {α : Type} (height : α → Int) (rows : List α)
    (max_canvas_h header_h table_header_h table_padding_h : Int) :
    List (Nat × List α) :=
  pagesOrDefault (paginateAux height
    (page_data_budget max_canvas_h header_h table_header_h table_padding_h)
    rows [] [] 0 0 0)

/-- The background stripe chosen by `render_sc_images` for the page-local
row `idx` of a page starting at global index `global_start_idx`:
`LIGHTGRAY` on even global parity, `WHITE` on odd. -/
def sc_stripe_bg (global_start_idx idx : Nat) : Color :=
  if (global_start_idx + idx) % 2 = 0 then Color.LIGHTGRAY else Color.WHITE

/-- Chained start-index property: page `k` starts where the rows of pages
`0..k-1` end. -/
def pagesStartsOk {α : Type} : Nat → List (Nat × List α) → Prop
  | _, [] => True
  | n, p :: rest => p.1 = n ∧ pagesStartsOk (n + p.2.length) rest

/-- Height discipline of one emitted page under data budget `m`: a page
with at least two rows fits the budget, and a row taller than the whole
budget sits alone on its page. -/
def pageOkBound {α : Type} (height : α → Int) (m : Int) (p : Nat × List α) : Prop :=
  (2 ≤ p.2.length → (p.2.map height).sum ≤ m) ∧
  (∀ r ∈ p.2, m < height r → p.2 = [r])

/-! ### commands/live_list.py — pixel-budget truncation

`_limit_text_by_px` measures text through
`PicGenerator._measure_with_fallback`, which sums per-run font advances.
Pixel measurement is modelled by a per-character width table
`cw : Char → Nat` summed over the text (`measureCW`); the repository's
own last-resort measurement (`len(text) * 10`) is the instance
`cw = fun _ => 10`. -/

def measureCW (cw : Char → Nat) (cs : List Char) : Nat := (cs.map cw).sum

/-- The `"..."` suffix appended by `_limit_text_by_px`. -/
def ellipsisChars : List Char := ['.', '.', '.']

/-- The greedy character loop of `_limit_text_by_px`: append characters
while the accumulated width plus the reserved suffix width stays within
budget; on the first overflow drop the last character and stop. -/
def limitLoop (cw : Char → Nat) (maxPx sufW : Nat) : List Char → List Char → List Char
  | [], acc => acc
  | ch :: rest, acc =>
    if maxPx < measureCW cw (acc ++ [ch]) + sufW then acc
    else limitLoop cw maxPx sufW rest (acc ++ [ch])

/-- `live_list._limit_text_by_px`: return the text unchanged when it fits
in `max_px`, else truncate greedily and append `"..."`. -/
def _limit_text_by_px (cw : Char → Nat) (text : List Char) (maxPx : Nat) : List Char :=
  if text = [] then []
  else if measureCW cw text ≤ maxPx then text
  else limitLoop cw maxPx (measureCW cw ellipsisChars) text [] ++ ellipsisChars

/-! ### Helper lemmas -/

theorem natDigitsAux_ne_nil (fuel n : Nat) : natDigitsAux (fuel + 1) n ≠ [] := by
  unfold natDigitsAux
  split <;> simp

theorem natDigitsAux_all_digit (fuel : Nat) :
    ∀ n, ∀ c ∈ natDigitsAux fuel n, c.isDigit = true := by
  induction fuel with
  | zero => intro n c hc; simp [natDigitsAux] at hc
  | succ k ih =>
    intro n c hc
    unfold natDigitsAux at hc
    split at hc
    · next h =>
      simp at hc
      subst hc
      unfold digitChar
      interval_cases n <;> decide
    · rcases List.mem_append.1 hc with h1 | h2
      · exact ih _ c h1
      · simp at h2
        subst h2
        have hm : n % 10 < 10 := Nat.mod_lt _ (by omega)
        unfold digitChar
        interval_cases h : (n % 10) <;> decide

theorem natDigits_ne_nil (n : Nat) : natDigits n ≠ [] := natDigitsAux_ne_nil n n

theorem set_total_eraseTotal (d : StatRecord) :
    set_total_from_components (eraseTotal d) = set_total_from_components d := rfl

/-! ### Claim theorems -/

/-- C1: the drawn total always equals `gift + super_chat + guard`
recomputed from the component fields (absent components counting as 0):
the preprocessing pass of `render_table_image` is invariant under the
upstream `total` entry, so a supplied total never influences the
rendered output, and `render_liushui_card` computes its total as the sum
of its component arguments. -/
theorem c1_total_recomputed :
    (∀ d : StatRecord, table_total_cell d =
        _to_float d.gift + _to_float d.super_chat + _to_float d.guard) ∧
    (∀ l₁ l₂ : List StatRecord, l₁.map eraseTotal = l₂.map eraseTotal →
        prepare_records l₁ = prepare_records l₂) ∧
    (∀ g gu s : Option ℚ, render_liushui_total g gu s =
        pyOrZero g + pyOrZero gu + pyOrZero s) := by
  refine ⟨fun d => rfl, ?_, fun g gu s => rfl⟩
  intro l₁ l₂ h
  have key : ∀ l : List StatRecord,
      prepare_records l = (l.map eraseTotal).map set_total_from_components := by
    intro l
    rw [List.map_map]
    induction l with
    | nil => rfl
    | cons d t iht =>
      simpa [prepare_records, set_total_eraseTotal d] using iht
  rw [key l₁, key l₂, h]

/-- C1 witness: a concrete record list where changing the upstream total
entry leaves the preprocessed records unchanged. -/
theorem c1_witness :
    prepare_records [{ gift := some 1, super_chat := some 2, guard := some 3, total := some 99 }] =
      prepare_records [{ gift := some 1, super_chat := some 2, guard := some 3, total := none }] :=
  c1_total_recomputed.2.1 _ _ rfl

/-- C6: `normalize_month_arg` maps `"202509"` and `"2025-09"` to
`"202509"`, rejects `"202513"` and `"abcdef"`, and in general succeeds
exactly on stripped inputs of the form `YYYYMM` or `YYYY-MM` with the
month field between 01 and 12. -/
theorem c6_normalize_month :
    normalize_month_arg "202509" = some "202509" ∧
    normalize_month_arg "2025-09" = some "202509" ∧
    normalize_month_arg "202513" = none ∧
    normalize_month_arg "abcdef" = none ∧
    (∀ raw : String, (normalize_month_arg raw).isSome = matchesMonthPattern raw) := by
  refine ⟨by decide, by decide, by decide, by decide, ?_⟩
  intro raw
  unfold normalize_month_arg matchesMonthPattern
  by_cases hr : raw.data = []
  · have hs : pyStrip raw.data = [] := by rw [hr]; rfl
    rw [hs]
    simp [hr]
  · rw [if_neg hr]
    rcases hstrip : pyStrip raw.data with - | ⟨a, - | ⟨b, - | ⟨c, - | ⟨d,
        - | ⟨e, - | ⟨f, - | ⟨g, - | ⟨h8, rest⟩⟩⟩⟩⟩⟩⟩⟩ <;>
      simp only [monthResult] <;> (try split_ifs) <;> simp_all

/-- C7 counterexample: the repository has two duration formatters; the
one in query.py renders `"01:30:00"` with two decimals, not as the
claimed one-decimal `"1.5小时"`, and maps the malformed empty string to
`"00:00:00"` rather than returning it unchanged. -/
theorem c7_counterexample :
    _format_duration_hours "01:30:00" = "1.50小时" ∧
    ("1.50小时" : String) ≠ "1.5小时" ∧
    _format_duration_hours "" = "00:00:00" :=
  ⟨by decide, by decide, by decide⟩

/-- C7 amended: douchong's `format_duration` maps `"01:30:00"` to the
one-decimal `"1.5小时"` and returns every input that does not parse as
three colon-separated integer fields unchanged; query's
`_format_duration_hours` maps `"01:30:00"` to the two-decimal
`"1.50小时"` and returns malformed input unchanged except the empty
string, which becomes `"00:00:00"`. -/
theorem c7_duration_formatting :
    format_duration "01:30:00" = "1.5小时" ∧
    (∀ s : String, parseHMS s = none → format_duration s = s) ∧
    _format_duration_hours "01:30:00" = "1.50小时" ∧
    (∀ s : String, parseHMS s = none → s ≠ "" → _format_duration_hours s = s) ∧
    _format_duration_hours "" = "00:00:00" := by
  refine ⟨by decide, ?_, by decide, ?_, by decide⟩
  · intro s hs
    unfold format_duration
    rw [hs]
  · intro s hs hne
    unfold _format_duration_hours
    rw [hs]
    simp [hne]

/-- C7 witness: the malformed input `"bad"` is returned unchanged by
both formatters. -/
theorem c7_witness :
    parseHMS "bad" = none ∧ format_duration "bad" = "bad" ∧
    _format_duration_hours "bad" = "bad" :=
  ⟨by decide, c7_duration_formatting.2.1 "bad" (by decide),
    c7_duration_formatting.2.2.2.1 "bad" (by decide) (by decide)⟩

/-- C8: `format_count` renders an absent count as `"-"` and a zero count
as `"0"`, and no present integer count ever renders as the absent
placeholder, so zero and absent are always distinguishable. -/
theorem c8_format_count_zero_vs_absent :
    format_count none = "-" ∧ format_count (some 0) = "0" ∧
    (∀ n : Int, format_count (some n) ≠ format_count none) ∧
    format_count none ≠ "0" := by
  refine ⟨by decide, by decide, ?_, by decide⟩
  intro n h
  have hdata : pyIntStr n = ['-'] := congrArg String.data h
  unfold pyIntStr at hdata
  split at hdata
  · injection hdata with h1 h2
    exact natDigits_ne_nil n.natAbs h2
  · have hmem : '-' ∈ natDigits n.natAbs := by rw [hdata]; simp
    have := natDigitsAux_all_digit (n.natAbs + 1) n.natAbs '-' hmem
    simp at this

/-- C8 witness: concrete evaluation of the zero/absent distinction,
instantiating the present-count conjunct at 0. -/
theorem c8_witness :
    format_count none = "-" ∧ format_count (some 0) = "0" ∧
    format_count (some 0) ≠ format_count none :=
  ⟨c8_format_count_zero_vs_absent.1, c8_format_count_zero_vs_absent.2.1,
    c8_format_count_zero_vs_absent.2.2.1 0⟩

/-- C9: pagination of the empty row list yields exactly one page, with
start index 0 and no rows. -/
theorem c9_empty_input_single_page {α : Type} (height : α → Int)
    (max_canvas_h header_h table_header_h table_padding_h : Int) :
    _paginate_rows_by_height height [] max_canvas_h header_h table_header_h
      table_padding_h = [(0, [])] := rfl

theorem splitRunsAux_flatten (catSo : Char → Bool) (l : List Char) :
    ∀ buf bIsE, ((splitRunsAux catSo l buf bIsE).map Prod.fst).flatten = buf ++ l := by
  induction l with
  | nil =>
    intro buf b
    unfold splitRunsAux
    by_cases hb : buf.isEmpty
    · simp_all [List.isEmpty_iff]
    · simp [hb]
  | cons ch rest ih =>
    intro buf b
    unfold splitRunsAux
    by_cases hvs : ch.toNat = 0xFE0F ∨ ch.toNat = 0x200D
    · rw [if_pos hvs]
      by_cases hb : buf.isEmpty
      · rw [if_pos hb, ih]
        simp_all [List.isEmpty_iff]
      · rw [if_neg hb, ih]
        simp
    · rw [if_neg hvs]
      by_cases hb : buf.isEmpty
      · rw [if_pos hb, ih]
        simp_all [List.isEmpty_iff]
      · rw [if_neg hb]
        by_cases hcls : _is_emoji_char catSo ch = b
        · rw [if_pos hcls, ih]
          simp
        · rw [if_neg hcls]
          simp only [List.map_cons, List.flatten_cons, ih]
          simp

theorem splitRunsAux_runs_ne_nil (catSo : Char → Bool) (l : List Char) :
    ∀ buf bIsE p, p ∈ splitRunsAux catSo l buf bIsE → p.1 ≠ [] := by
  induction l with
  | nil =>
    intro buf b p hp
    unfold splitRunsAux at hp
    by_cases hb : buf.isEmpty
    · simp [hb] at hp
    · rw [if_neg hb] at hp
      simp at hp
      subst hp
      simp_all [List.isEmpty_iff]
  | cons ch rest ih =>
    intro buf b p hp
    unfold splitRunsAux at hp
    by_cases hvs : ch.toNat = 0xFE0F ∨ ch.toNat = 0x200D
    · rw [if_pos hvs] at hp
      by_cases hb : buf.isEmpty
      · rw [if_pos hb] at hp
        exact ih _ _ p hp
      · rw [if_neg hb] at hp
        exact ih _ _ p hp
    · rw [if_neg hvs] at hp
      by_cases hb : buf.isEmpty
      · rw [if_pos hb] at hp
        exact ih _ _ p hp
      · rw [if_neg hb] at hp
        by_cases hcls : _is_emoji_char catSo ch = b
        · rw [if_pos hcls] at hp
          exact ih _ _ p hp
        · rw [if_neg hcls] at hp
          rcases List.mem_cons.1 hp with h1 | h2
          · subst h1
            simp_all [List.isEmpty_iff]
          · exact ih _ _ p h2

/-- C10: the run splitter partitions its input: concatenating the run
texts in order reproduces the input string exactly, and every emitted
run text is nonempty (for any instantiation of the Unicode category
oracle). -/
theorem c10_split_runs_partition (catSo : Char → Bool) (s : List Char) :
    ((_split_runs_by_emoji catSo s).map Prod.fst).flatten = s ∧
    ∀ p ∈ _split_runs_by_emoji catSo s, p.1 ≠ [] :=
  ⟨by simpa using splitRunsAux_flatten catSo s [] false,
   fun p hp => splitRunsAux_runs_ne_nil catSo s [] false p hp⟩

/-- C10 witness: concrete evaluation of the partition property on a
mixed text/emoji string. -/
theorem c10_witness :
    ((_split_runs_by_emoji (fun _ => false) ['a', '😀', 'b']).map Prod.fst).flatten
        = ['a', '😀', 'b'] ∧
    (['😀'], true).1 ≠ [] :=
  ⟨(c10_split_runs_partition (fun _ => false) ['a', '😀', 'b']).1,
   (c10_split_runs_partition (fun _ => false) ['a', '😀', 'b']).2 (['😀'], true)
     (by decide)⟩

theorem measureCW_append (cw : Char → Nat) (a b : List Char) :
    measureCW cw (a ++ b) = measureCW cw a + measureCW cw b := by
  simp [measureCW]

theorem limitLoop_bound (cw : Char → Nat) (maxPx sufW : Nat) (l : List Char) :
    ∀ acc, measureCW cw acc + sufW ≤ maxPx →
      measureCW cw (limitLoop cw maxPx sufW l acc) + sufW ≤ maxPx := by
  induction l with
  | nil => intro acc h; exact h
  | cons ch rest ih =>
    intro acc h
    unfold limitLoop
    by_cases hc : maxPx < measureCW cw (acc ++ [ch]) + sufW
    · rw [if_pos hc]; exact h
    · rw [if_neg hc]; exact ih _ (by omega)

theorem limitLoop_nil_or_bound (cw : Char → Nat) (maxPx sufW : Nat) (l : List Char) :
    ∀ acc, acc = [] ∨ measureCW cw acc + sufW ≤ maxPx →
      limitLoop cw maxPx sufW l acc = [] ∨
        measureCW cw (limitLoop cw maxPx sufW l acc) + sufW ≤ maxPx := by
  induction l with
  | nil => intro acc h; exact h
  | cons ch rest ih =>
    intro acc h
    unfold limitLoop
    by_cases hc : maxPx < measureCW cw (acc ++ [ch]) + sufW
    · rw [if_pos hc]; exact h
    · rw [if_neg hc]; exact ih _ (Or.inr (by omega))

/-- C4 counterexample: with the repository's own last-resort width
metric of 10 px per character, truncating `"ab"` to an 15 px budget
yields `"..."`, whose measured width 30 px exceeds the budget, refuting
the unconditional output-width bound. -/
theorem c4_counterexample :
    15 < measureCW (fun _ => 10) (_limit_text_by_px (fun _ => 10) ['a', 'b'] 15) := by
  decide

/-- C4 amended: `_limit_text_by_px` is idempotent and returns any text
that already fits unchanged, for every per-character width metric; the
output-width bound (including the appended ellipsis) holds whenever the
budget is at least the width of the ellipsis suffix itself — for a
budget below the ellipsis width the output is the bare ellipsis and
exceeds the budget. -/
theorem c4_limit_text_properties (cw : Char → Nat) (text : List Char) (maxPx : Nat) :
    (measureCW cw text ≤ maxPx → _limit_text_by_px cw text maxPx = text) ∧
    (measureCW cw ellipsisChars ≤ maxPx →
      measureCW cw (_limit_text_by_px cw text maxPx) ≤ maxPx) ∧
    _limit_text_by_px cw (_limit_text_by_px cw text maxPx) maxPx =
      _limit_text_by_px cw text maxPx := by
  have hunch : ∀ t : List Char, measureCW cw t ≤ maxPx →
      _limit_text_by_px cw t maxPx = t := by
    intro t ht
    unfold _limit_text_by_px
    by_cases h0 : t = []
    · rw [if_pos h0, h0]
    · rw [if_neg h0, if_pos ht]
  refine ⟨hunch text, ?_, ?_⟩
  · intro hsuf
    unfold _limit_text_by_px
    by_cases h0 : text = []
    · rw [if_pos h0]; simp [measureCW]
    · rw [if_neg h0]
      by_cases hfit : measureCW cw text ≤ maxPx
      · rw [if_pos hfit]; exact hfit
      · rw [if_neg hfit, measureCW_append]
        have h := limitLoop_bound cw maxPx (measureCW cw ellipsisChars) text []
          (by simpa [measureCW] using hsuf)
        omega
  · by_cases h0 : text = []
    · subst h0
      rfl
    · by_cases hfit : measureCW cw text ≤ maxPx
      · rw [hunch text hfit, hunch text hfit]
      · have hout : _limit_text_by_px cw text maxPx =
            limitLoop cw maxPx (measureCW cw ellipsisChars) text [] ++ ellipsisChars := by
          unfold _limit_text_by_px
          rw [if_neg h0, if_neg hfit]
        by_cases hfit2 : measureCW cw
            (limitLoop cw maxPx (measureCW cw ellipsisChars) text [] ++ ellipsisChars) ≤ maxPx
        · rw [hout]
          exact hunch _ hfit2
        · rcases limitLoop_nil_or_bound cw maxPx (measureCW cw ellipsisChars) text []
              (Or.inl rfl) with hL | hB
          · have hsufbig : maxPx < measureCW cw ellipsisChars := by
              rw [hL] at hfit2
              simpa [measureCW] using hfit2
            have hloopnil :
                limitLoop cw maxPx (measureCW cw ellipsisChars) ellipsisChars [] = [] := by
              show limitLoop cw maxPx (measureCW cw ellipsisChars) ('.' :: ['.', '.']) [] = []
              unfold limitLoop
              rw [if_pos (by simp only [List.nil_append]; omega)]
            rw [hout, hL]
            simp only [List.nil_append]
            unfold _limit_text_by_px
            rw [if_neg (by simp [ellipsisChars]), if_neg (by omega), hloopnil]
            simp
          · exfalso
            rw [measureCW_append] at hfit2
            omega

/-- C4 witness: concrete instances of the fits-unchanged, width-bound
and idempotence properties under the 10 px per character metric. -/
theorem c4_witness :
    measureCW (fun _ => 10) ['a', 'b'] ≤ 20 ∧
    _limit_text_by_px (fun _ => 10) ['a', 'b'] 20 = ['a', 'b'] ∧
    measureCW (fun _ => 10) ellipsisChars ≤ 50 ∧
    measureCW (fun _ => 10) (_limit_text_by_px (fun _ => 10)
      ['a', 'b', 'c', 'd', 'e', 'f'] 50) ≤ 50 ∧
    _limit_text_by_px (fun _ => 10) (_limit_text_by_px (fun _ => 10)
        ['a', 'b', 'c', 'd', 'e', 'f'] 50) 50 =
      _limit_text_by_px (fun _ => 10) ['a', 'b', 'c', 'd', 'e', 'f'] 50 :=
  ⟨by decide,
   (c4_limit_text_properties (fun _ => 10) ['a', 'b'] 20).1 (by decide),
   by decide,
   (c4_limit_text_properties (fun _ => 10) ['a', 'b', 'c', 'd', 'e', 'f'] 50).2.1
     (by decide),
   (c4_limit_text_properties (fun _ => 10) ['a', 'b', 'c', 'd', 'e', 'f'] 50).2.2⟩

theorem paginateAux_flatten {α : Type} (height : α → Int) (m : Int) (l : List α) :
    ∀ pages cur cur_h start_idx global_idx,
      ((paginateAux height m l pages cur cur_h start_idx global_idx).map
          Prod.snd).flatten
        = (pages.map Prod.snd).flatten ++ cur ++ l := by
  induction l with
  | nil =>
    intro pages cur cur_h s g
    unfold paginateAux
    by_cases hc : cur.isEmpty
    · rw [if_pos hc]
      simp_all [List.isEmpty_iff]
    · rw [if_neg hc]
      simp
  | cons r rest ih =>
    intro pages cur cur_h s g
    unfold paginateAux
    by_cases hc : cur.isEmpty = false ∧ m < cur_h + height r
    · rw [if_pos hc, ih]
      simp
    · rw [if_neg hc, ih]
      simp

theorem paginate_flatten {α : Type} (height : α → Int) (rows : List α)
    (max_canvas_h header_h table_header_h table_padding_h : Int) :
    ((_paginate_rows_by_height height rows max_canvas_h header_h table_header_h
        table_padding_h).map Prod.snd).flatten = rows := by
  unfold _paginate_rows_by_height pagesOrDefault
  have haux := paginateAux_flatten height
    (page_data_budget max_canvas_h header_h table_header_h table_padding_h)
    rows [] [] 0 0 0
  by_cases he : (paginateAux height
      (page_data_budget max_canvas_h header_h table_header_h table_padding_h)
      rows [] [] 0 0 0).isEmpty
  · rw [if_pos he]
    have hnil : paginateAux height
        (page_data_budget max_canvas_h header_h table_header_h table_padding_h)
        rows [] [] 0 0 0 = [] := by simpa [List.isEmpty_iff] using he
    rw [hnil] at haux
    simpa using haux.symm
  · rw [if_neg he]
    simpa using haux

theorem sum_map_flatten {α : Type} (f : α → Int) (xss : List (List α)) :
    ((xss.flatten).map f).sum = (xss.map (fun xs => (xs.map f).sum)).sum := by
  induction xss with
  | nil => rfl
  | cons xs t ih =>
    simp [ih]
    rfl

/-- C2: pagination partitions the input rows: the concatenation of the
pages' row lists equals the input list (no row split, dropped,
duplicated or reordered), and consequently the total row height over all
pages equals the total height of the input rows. -/
theorem c2_pagination_partition {α : Type} (height : α → Int) (rows : List α)
    (max_canvas_h header_h table_header_h table_padding_h : Int) :
    ((_paginate_rows_by_height height rows max_canvas_h header_h table_header_h
        table_padding_h).map Prod.snd).flatten = rows ∧
    ((_paginate_rows_by_height height rows max_canvas_h header_h table_header_h
        table_padding_h).map (fun p => (p.2.map height).sum)).sum
      = (rows.map height).sum := by
  have hflat := paginate_flatten height rows max_canvas_h header_h table_header_h
    table_padding_h
  refine ⟨hflat, ?_⟩
  calc ((_paginate_rows_by_height height rows max_canvas_h header_h table_header_h
          table_padding_h).map (fun p => (p.2.map height).sum)).sum
      = (((_paginate_rows_by_height height rows max_canvas_h header_h table_header_h
          table_padding_h).map Prod.snd).map (fun xs => (xs.map height).sum)).sum := by
        rw [List.map_map]; rfl
    _ = ((((_paginate_rows_by_height height rows max_canvas_h header_h table_header_h
          table_padding_h).map Prod.snd).flatten).map height).sum :=
        (sum_map_flatten height _).symm
    _ = (rows.map height).sum := by rw [hflat]

theorem paginateAux_pages_ok {α : Type} (height : α → Int) (m : Int) (l : List α) :
    ∀ pages cur cur_h s g,
      (∀ r ∈ l, 0 ≤ height r) →
      (∀ r ∈ cur, 0 ≤ height r) →
      cur_h = (cur.map height).sum →
      (2 ≤ cur.length → cur_h ≤ m) →
      (∀ r ∈ cur, m < height r → cur = [r]) →
      (∀ p ∈ pages, pageOkBound height m p) →
      ∀ p ∈ paginateAux height m l pages cur cur_h s g, pageOkBound height m p := by
  induction l with
  | nil =>
    intro pages cur cur_h s g _ _ hch h2 ho hp p hmem
    unfold paginateAux at hmem
    by_cases hc : cur.isEmpty
    · rw [if_pos hc] at hmem
      exact hp p hmem
    · rw [if_neg hc] at hmem
      rcases List.mem_append.1 hmem with h1 | h1
      · exact hp p h1
      · simp at h1
        subst h1
        exact ⟨fun hlen => hch ▸ h2 hlen, ho⟩
  | cons r rest ih =>
    intro pages cur cur_h s g hl hcur hch h2 ho hp p hmem
    have hr0 : 0 ≤ height r := hl r (List.mem_cons_self r rest)
    have hl2 : ∀ x ∈ rest, 0 ≤ height x := fun x hx => hl x (List.mem_cons_of_mem r hx)
    unfold paginateAux at hmem
    by_cases hc : cur.isEmpty = false ∧ m < cur_h + height r
    · rw [if_pos hc] at hmem
      refine ih _ _ _ _ _ hl2 ?_ ?_ ?_ ?_ ?_ p hmem
      · intro x hx
        simp at hx
        subst hx
        exact hr0
      · simp
      · intro hlen
        simp at hlen
      · intro x hx hgt
        simp at hx
        subst hx
        rfl
      · intro q hq
        rcases List.mem_append.1 hq with h1 | h1
        · exact hp q h1
        · simp at h1
          subst h1
          exact ⟨fun hlen => hch ▸ h2 hlen, ho⟩
    · rw [if_neg hc] at hmem
      have hch0 : 0 ≤ cur_h := by
        rw [hch]
        apply List.sum_nonneg
        intro y hy
        rcases List.mem_map.1 hy with ⟨x, hx, hxy⟩
        exact hxy ▸ hcur x hx
      refine ih _ _ _ _ _ hl2 ?_ ?_ ?_ ?_ hp p hmem
      · intro x hx
        rcases List.mem_append.1 hx with h1 | h1
        · exact hcur x h1
        · simp at h1
          subst h1
          exact hr0
      · rw [hch]
        simp
      · intro hlen
        by_cases hce : cur.isEmpty
        · have hnil : cur = [] := by simpa [List.isEmpty_iff] using hce
          rw [hnil] at hlen
          simp at hlen
        · have hnc : ¬ m < cur_h + height r := fun hlt =>
            hc ⟨by simpa using hce, hlt⟩
          omega
      · intro x hx hgt
        by_cases hce : cur.isEmpty
        · have hnil : cur = [] := by simpa [List.isEmpty_iff] using hce
          rw [hnil] at hx ⊢
          simp at hx
          subst hx
          simp
        · exfalso
          have hnc : ¬ m < cur_h + height r := fun hlt =>
            hc ⟨by simpa using hce, hlt⟩
          rcases List.mem_append.1 hx with h1 | h1
          · have hx1 := ho x h1 hgt
            rw [hx1] at hch
            simp at hch
            omega
          · simp at h1
            subst h1
            omega

/-- C3: with non-negative row heights, every page holding two or more
rows fits within the per-page data budget
`max_canvas_h - header_h - table_header_h - table_padding_h` (clamped
below to 1 px, so the budget is always positive and the loop cannot
stall), while a single row taller than the whole budget is placed alone
as the only row of its page.  The embedding is structurally recursive,
so the procedure terminates on every input by construction. -/
theorem c3_page_budget {α : Type} (height : α → Int) (rows : List α)
    (max_canvas_h header_h table_header_h table_padding_h : Int)
    (hnn : ∀ r ∈ rows, 0 ≤ height r) :
    1 ≤ page_data_budget max_canvas_h header_h table_header_h table_padding_h ∧
    ∀ p ∈ _paginate_rows_by_height height rows max_canvas_h header_h
        table_header_h table_padding_h,
      (2 ≤ p.2.length → (p.2.map height).sum ≤
        page_data_budget max_canvas_h header_h table_header_h table_padding_h) ∧
      (∀ r ∈ p.2, page_data_budget max_canvas_h header_h table_header_h
          table_padding_h < height r → p.2 = [r]) := by
  constructor
  · unfold page_data_budget
    split <;> omega
  · intro p hp
    unfold _paginate_rows_by_height pagesOrDefault at hp
    by_cases he : (paginateAux height
        (page_data_budget max_canvas_h header_h table_header_h table_padding_h)
        rows [] [] 0 0 0).isEmpty
    · rw [if_pos he] at hp
      simp at hp
      rw [hp]
      exact ⟨by intro h; simp at h, by intro r hr; simp at hr⟩
    · rw [if_neg he] at hp
      exact paginateAux_pages_ok height _ rows [] [] 0 0 0 hnn
        (by intro x hx; simp at hx) (by simp) (by intro h; simp at h)
        (by intro x hx; simp at hx) (by intro q hq; simp at hq) p hp

/-- C3 witness: a concrete run where a two-row page fits the budget and
an oversized row is paged alone. -/
theorem c3_witness :
    1 ≤ page_data_budget 300 50 50 40 ∧
    ((2 ≤ ([(100 : Int), 50]).length →
        (([(100 : Int), 50]).map (fun h : Int => h)).sum ≤ page_data_budget 300 50 50 40) ∧
      (∀ r ∈ [(100 : Int), 50], page_data_budget 300 50 50 40 < r →
        [(100 : Int), 50] = [r])) ∧
    ((2 ≤ ([(400 : Int)]).length →
        (([(400 : Int)]).map (fun h : Int => h)).sum ≤ page_data_budget 300 50 50 40) ∧
      (∀ r ∈ [(400 : Int)], page_data_budget 300 50 50 40 < r →
        [(400 : Int)] = [r])) := by
  have h := c3_page_budget (fun h : Int => h) [100, 50, 400] 300 50 50 40 (by decide)
  exact ⟨h.1, h.2 (0, [100, 50]) (by decide), h.2 (2, [400]) (by decide)⟩

theorem pagesStartsOk_cons {α : Type} (n : Nat) (p : Nat × List α)
    (t : List (Nat × List α)) :
    pagesStartsOk n (p :: t) ↔ p.1 = n ∧ pagesStartsOk (n + p.2.length) t :=
  Iff.rfl

theorem pagesStartsOk_append {α : Type} (x : List α) (s : Nat) :
    ∀ (pages : List (Nat × List α)) (n : Nat), pagesStartsOk n pages →
      s = n + ((pages.map fun p => p.2.length).sum) →
      pagesStartsOk n (pages ++ [(s, x)]) := by
  intro pages
  induction pages with
  | nil =>
    intro n _ hs
    refine ⟨?_, trivial⟩
    simpa using hs
  | cons p t ih =>
    intro n hp hs
    obtain ⟨h1, h2⟩ := hp
    refine ⟨h1, ih _ h2 ?_⟩
    simp at hs ⊢
    omega

theorem paginateAux_startsOk {α : Type} (height : α → Int) (m : Int) (l : List α) :
    ∀ pages cur cur_h s g,
      pagesStartsOk 0 pages →
      s = ((pages.map fun p => p.2.length).sum) →
      g = s + cur.length →
      pagesStartsOk 0 (paginateAux height m l pages cur cur_h s g) := by
  induction l with
  | nil =>
    intro pages cur cur_h s g hp hs hg
    unfold paginateAux
    by_cases hc : cur.isEmpty
    · rw [if_pos hc]
      exact hp
    · rw [if_neg hc]
      exact pagesStartsOk_append cur s pages 0 hp (by simpa using hs)
  | cons r rest ih =>
    intro pages cur cur_h s g hp hs hg
    unfold paginateAux
    by_cases hc : cur.isEmpty = false ∧ m < cur_h + height r
    · rw [if_pos hc]
      refine ih _ _ _ _ _ ?_ ?_ ?_
      · exact pagesStartsOk_append cur s pages 0 hp (by simpa using hs)
      · simp
        omega
      · simp
    · rw [if_neg hc]
      refine ih _ _ _ _ _ hp hs ?_
      simp
      omega

theorem pagesStartsOk_get {α : Type} :
    ∀ (pages : List (Nat × List α)) (n : Nat), pagesStartsOk n pages →
      ∀ k (hk : k < pages.length),
        (pages.get ⟨k, hk⟩).1 = n + (((pages.take k).map fun p => p.2.length).sum) := by
  intro pages
  induction pages with
  | nil =>
    intro n _ k hk
    simp at hk
  | cons p t ih =>
    intro n hp k hk
    obtain ⟨h1, h2⟩ := hp
    cases k with
    | zero => simpa using h1
    | succ j =>
      have hj := ih (n + p.2.length) h2 j (by simpa using hk)
      simp only [List.get_cons_succ, List.take_succ_cons, List.map_cons, List.sum_cons]
      rw [hj]
      omega

/-- C5: each page's start index equals the total number of rows on all
preceding pages, i.e. the global index of the page's first row in the
input list (whose concatenation the pages reproduce), so the stripe
parity `(global_start_idx + idx) % 2` used by `render_sc_images` agrees
with the parity of the row's index in the full input on every page. -/
theorem c5_page_start_indices {α : Type} (height : α → Int) (rows : List α)
    (max_canvas_h header_h table_header_h table_padding_h : Int) :
    (∀ k (hk : k < (_paginate_rows_by_height height rows max_canvas_h header_h
        table_header_h table_padding_h).length),
      ((_paginate_rows_by_height height rows max_canvas_h header_h
          table_header_h table_padding_h).get ⟨k, hk⟩).1 =
        (((_paginate_rows_by_height height rows max_canvas_h header_h
            table_header_h table_padding_h).take k).map fun p => p.2.length).sum) ∧
    ((_paginate_rows_by_height height rows max_canvas_h header_h table_header_h
        table_padding_h).map Prod.snd).flatten = rows ∧
    (∀ global_start_idx idx : Nat,
      sc_stripe_bg global_start_idx idx = sc_stripe_bg 0 (global_start_idx + idx)) := by
  refine ⟨?_, paginate_flatten height rows max_canvas_h header_h table_header_h
    table_padding_h, fun gs idx => by simp [sc_stripe_bg]⟩
  have hok : pagesStartsOk 0 (_paginate_rows_by_height height rows max_canvas_h
      header_h table_header_h table_padding_h) := by
    unfold _paginate_rows_by_height pagesOrDefault
    by_cases he : (paginateAux height
        (page_data_budget max_canvas_h header_h table_header_h table_padding_h)
        rows [] [] 0 0 0).isEmpty
    · rw [if_pos he]
      exact ⟨rfl, trivial⟩
    · rw [if_neg he]
      exact paginateAux_startsOk height _ rows [] [] 0 0 0 trivial rfl rfl
  intro k hk
  simpa using pagesStartsOk_get _ 0 hok k hk

/-- C5 witness: in a concrete three-row run producing three pages, the
second page's start index equals the number of rows on the first page. -/
theorem c5_witness :
    ((_paginate_rows_by_height (fun h : Int => h) [100, 50, 400] 300 50 50 40).get
        ⟨1, by decide⟩).1 =
      (((_paginate_rows_by_height (fun h : Int => h) [100, 50, 400] 300 50 50 40).take
          1).map fun p => p.2.length).sum :=
  (c5_page_start_indices (fun h : Int => h) [100, 50, 400] 300 50 50 40).1 1 (by decide)

end VRPSP
